import Mathlib

/-!
Verification development for the vapcord IPC layer
(src/packages/core/ipc/channel.ts and the rpc facade).

The TypeScript code is shallowly embedded: every stateful method of
`Channel` becomes a pure Lean function from the channel state to a new
state together with a list of observable effects (pipe emissions,
internal emitter notifications, handler invocations, promise
settlements).  JS `Map`s become association lists with JS `Map.set`
semantics (replace-in-place on an existing key, append on a new key).
`Math.random`-based nonce generation is modelled by a per-channel
counter: only freshness of nonces is relevant to the protocol.
Promise timing is modelled by explicit deadlines: `call` stores
`now + timeout` with the pending entry and `fireTimeout` is the
transition the JS event loop takes when that deadline is reached.
-/

namespace VapIpc

/-- JS values that travel through the IPC layer: enough structure for the
payloads the protocol itself inspects.  `verr` models a JS `Error`
instance (observed by the `data instanceof Error` test in `call`); JS
arrays (the RPC argument lists) are encoded as `acons`/`anil` chains. -/
inductive Value where
  | vnull : Value
  | num (n : Int) : Value
  | vstr (s : String) : Value
  | anil : Value
  | acons (hd tl : Value) : Value
  | verr (msg : String) : Value
deriving DecidableEq, Repr

/-- Handshake payload, `ChannelEdge` in channel.ts: the announcing
channel's id and the channel ids it knows about. -/
structure ChannelEdge where
  id : String
  channelIds : List String
deriving DecidableEq, Repr

/-- The caller-supplied part of a message (`ChannelMessageIn`). -/
structure MessageIn where
  name : String
  destination : String
  data : Value
deriving DecidableEq, Repr

/-- A message on the wire (`ChannelMessageOut`). -/
structure MessageOut where
  name : String
  destination : String
  data : Value
  source : String
  proxiedBy : Option String
  nonce : Option String
deriving DecidableEq, Repr

/-- Event name used for handshake traffic (ipcPrefix + ":handshake"). -/
def hsEvent : String := "vapIpc:handshake"

/-- Event name used for message traffic (ipcPrefix + ":message"). -/
def msgEvent : String := "vapIpc:message"

/-- Payload carried by a pipe emission. -/
inductive Payload where
  | hs (e : ChannelEdge) : Payload
  | msg (m : MessageOut) : Payload
deriving DecidableEq, Repr

/-- Observable effects of a channel operation.  `emitPipe` is
`pipe.emit`; `edgeCreate` is `this._emitter.emit(kEdgeCreate, edge)`;
`localEvent` is `this._emitter.emit(message.name, message.data)`;
`handlerInvoked` marks `caller(message.data)` being invoked;
`callResolved` marks the stored pending-call callback being invoked with
the response data; `timeoutReject` marks the setTimeout callback
rejecting the call. -/
inductive Effect where
  | emitPipe (pipe : Nat) (event : String) (pay : Payload) : Effect
  | edgeCreate (e : ChannelEdge) : Effect
  | localEvent (name : String) (data : Value) : Effect
  | handlerInvoked (name : String) (data : Value) : Effect
  | callResolved (nonce : String) (data : Value) : Effect
  | timeoutReject (nonce : String) : Effect
deriving DecidableEq, Repr

/-- A registered call handler (`_callers` entry): the composite of the
user handler and the `.catch` in `_handleMessage`, summarised by its
outcome on a given input. -/
def HandlerFn : Type := Value → Except String Value

/- Association lists with JS `Map` semantics. -/

/-- JS `Map.get`. -/
def mapGet {α : Type} : List (String × α) → String → Option α
  | [], _ => none
  | (k, v) :: rest, key => if k = key then some v else mapGet rest key

/-- JS `Map.set`: replace in place when the key exists, append otherwise. -/
def mapSet {α : Type} : List (String × α) → String → α → List (String × α)
  | [], k, v => [(k, v)]
  | (k', v') :: rest, k, v =>
      if k' = k then (k, v) :: rest else (k', v') :: mapSet rest k v

/-- JS `Map.delete` (keys are unique in a JS Map; removes the first hit). -/
def mapDelete {α : Type} : List (String × α) → String → List (String × α)
  | [], _ => []
  | (k', v') :: rest, k =>
      if k' = k then rest else (k', v') :: mapDelete rest k

/-- Key list of an association map. -/
def mapKeys {α : Type} (m : List (String × α)) : List String :=
  m.map Prod.fst

/-- JS `array.splice(array.indexOf(x), 1)` guarded by `includes`:
removes the first occurrence of `b`, if any. -/
def eraseFirst : List String → String → List String
  | [], _ => []
  | x :: xs, b => if x = b then xs else x :: eraseFirst xs b

/-- Number of occurrences of `b`. -/
def countStr : List String → String → Nat
  | [], _ => 0
  | x :: xs, b => if x = b then countStr xs b + 1 else countStr xs b

/-- JS `filter(x => x !== b)`. -/
def removeAllStr : List String → String → List String
  | [], _ => []
  | x :: xs, b => if x = b then removeAllStr xs b else x :: removeAllStr xs b

/-- JS `filter(x => !known.includes(x))`. -/
def filterNew : List String → List String → List String
  | [], _ => []
  | x :: xs, known =>
      if x ∈ known then filterNew xs known else x :: filterNew xs known

/-- JS `filter((id, index, arr) => arr.indexOf(id) === index)`: keep the
first occurrence of each element. -/
def dedupFirstAux : List String → List String → List String
  | _, [] => []
  | seen, x :: xs =>
      if x ∈ seen then dedupFirstAux seen xs
      else x :: dedupFirstAux (x :: seen) xs

/-- Deduplication keeping first occurrences. -/
def dedupFirst (xs : List String) : List String :=
  dedupFirstAux [] xs

/-- State of a `Channel` node.  `_nonceCtr` replaces `Math.random` as
the nonce source; `_emitter` listeners for user events are not part of
the state (their invocation is the `localEvent` effect). -/
structure Channel where
  id : String
  _edges : List (String × ChannelEdge)
  _callbacks : List (String × Nat)
  _callers : List (String × HandlerFn)
  _edgePipes : List (String × Nat)
  _pipes : List Nat
  _nonceCtr : Nat
  _destroyed : Bool

/-- A fresh channel with the given id and attached pipes
(`new Channel(id)` followed by transport wiring). -/
def mkChan (cid : String) (ps : List Nat) : Channel :=
  { id := cid, _edges := [], _callbacks := [], _callers := [],
    _edgePipes := [], _pipes := ps, _nonceCtr := 0, _destroyed := false }

/-- Translation of `Channel.getEdge`. -/
def Channel.getEdge (c : Channel) : ChannelEdge :=
  { id := c.id,
    channelIds :=
      dedupFirst (mapKeys c._edges ++
        (c._edges.map (fun p => p.2.channelIds)).flatten) }

/-- Translation of `Channel.findEdgeId`: scan `_edges` values in
insertion order, return the first edge that is the destination or can
reach it. -/
def findEdgeIdAux : List (String × ChannelEdge) → String → Option String
  | [], _ => none
  | (_, e) :: rest, d =>
      if e.id = d ∨ d ∈ e.channelIds then some e.id
      else findEdgeIdAux rest d

/-- Translation of `Channel.findEdgeId` (parameter name kept from the
source). -/
def Channel.findEdgeId (c : Channel) (destinaton : String) : Option String :=
  findEdgeIdAux c._edges destinaton

/-- Translation of `Channel._emitHandshake`. -/
def Channel._emitHandshake (c : Channel) (pipe : Nat) : List Effect :=
  [Effect.emitPipe pipe hsEvent (Payload.hs c.getEdge)]

/-- Translation of `Channel.handshakeAll`. -/
def Channel.handshakeAll (c : Channel) : List Effect :=
  c._pipes.map (fun p => Effect.emitPipe p hsEvent (Payload.hs c.getEdge))

/-- Translation of `Channel._emitMessage`: resolve the next hop and emit
on its pipe, silently dropping when no route or no pipe is known. -/
def Channel._emitMessage (c : Channel) (m : MessageOut) : List Effect :=
  match c.findEdgeId m.destination with
  | none => []
  | some edgeId =>
      match mapGet c._edgePipes edgeId with
      | none => []
      | some p => [Effect.emitPipe p msgEvent (Payload.msg m)]

/-- Translation of `Channel._handleHandshake`. -/
def Channel._handleHandshake (c : Channel) (pipe : Nat) (edge : ChannelEdge) :
    Channel × List Effect :=
  if c.id = edge.id then (c, [])
  else
    match mapGet c._edges edge.id with
    | some prevEdge =>
        let newEdgeIds := eraseFirst (filterNew edge.channelIds prevEdge.channelIds) c.id
        if newEdgeIds = [] then (c, [])
        else
          let merged : ChannelEdge :=
            { id := edge.id, channelIds := prevEdge.channelIds ++ newEdgeIds }
          let c2 : Channel := { c with _edges := mapSet c._edges edge.id merged }
          (c2, Effect.edgeCreate edge :: c2.handshakeAll)
    | none =>
        let fresh : ChannelEdge :=
          { id := edge.id, channelIds := removeAllStr edge.channelIds c.id }
        let c2 : Channel :=
          { c with _edges := mapSet c._edges edge.id fresh,
                   _edgePipes := mapSet c._edgePipes edge.id pipe }
        (c2, Effect.edgeCreate edge :: c2.handshakeAll)

/-- Outcome of the host-side `.catch`: a thrown/rejected handler error is
converted to a JS `Error` payload, a successful result passes through. -/
def respData : Except String Value → Value
  | Except.ok v => v
  | Except.error e => Value.verr e

/-- Translation of `Channel._handleMessage`.  The pending-call callback
installed by `call` always deletes its nonce and settles the promise, so
its body is inlined at the response branch; the asynchronous
`caller(...).then(...)` chain of the call branch is modelled by
computing the response immediately (the handler does not mutate channel
state). -/
def Channel._handleMessage (c : Channel) (_pipe : Nat) (m : MessageOut) :
    Channel × List Effect :=
  if m.proxiedBy = some c.id then (c, [])
  else if m.destination = c.id then
    match m.nonce with
    | none => (c, [Effect.localEvent m.name m.data])
    | some nonce =>
        match mapGet c._callbacks nonce with
        | some _ =>
            ({ c with _callbacks := mapDelete c._callbacks nonce },
             [Effect.callResolved nonce m.data])
        | none =>
            match mapGet c._callers m.name with
            | some caller =>
                (c, Effect.handlerInvoked m.name m.data ::
                  c._emitMessage
                    { name := m.name, destination := m.source,
                      data := respData (caller m.data), source := c.id,
                      proxiedBy := none, nonce := some nonce })
            | none => (c, [])
  else
    (c, c._emitMessage { m with proxiedBy := some c.id })

/-- Translation of `Channel.addPipe`: registers the two reserved
listeners (their dispatch is the `Net.step` relation below) and appends
the pipe; nothing is emitted. -/
def Channel.addPipe (c : Channel) (pipe : Nat) : Channel × List Effect :=
  ({ c with _pipes := c._pipes ++ [pipe] }, [])

/-- Translation of `Channel.createNonce` with the counter nonce source. -/
def Channel.createNonce (c : Channel) : String :=
  "n" ++ toString c._nonceCtr

/-- The `call` default timeout (`{ timeout: 10000 }`). -/
def defaultCallTimeout : Nat := 10000

/-- Translation of `Channel.send`. -/
def Channel.send (c : Channel) (md : MessageIn) : List Effect :=
  c._emitMessage
    { name := md.name, destination := md.destination, data := md.data,
      source := c.id, proxiedBy := none, nonce := none }

/-- Translation of `Channel.call` at time `now` with timeout `t`.
The Promise executor runs synchronously: the pending entry (with its
deadline) is registered first and only then is the request emitted, from
the updated state.  Returns the new state, the emissions and the nonce. -/
def Channel.call (c : Channel) (md : MessageIn) (t : Nat) (now : Nat) :
    Channel × List Effect × String :=
  let nonce := c.createNonce
  let c1 : Channel :=
    { c with _nonceCtr := c._nonceCtr + 1,
             _callbacks := mapSet c._callbacks nonce (now + t) }
  (c1,
   c1._emitMessage
     { name := md.name, destination := md.destination, data := md.data,
       source := c.id, proxiedBy := none, nonce := some nonce },
   nonce)

/-- The setTimeout callback installed by `call`: when the deadline is
reached and the entry is still pending, remove it and reject the call
with the timeout error.  (If the call already settled, `clearTimeout`
prevented this transition; the guard models that.) -/
def Channel.fireTimeout (c : Channel) (nonce : String) : Channel × List Effect :=
  match mapGet c._callbacks nonce with
  | some _ =>
      ({ c with _callbacks := mapDelete c._callbacks nonce },
       [Effect.timeoutReject nonce])
  | none => (c, [])

/-- Translation of `Channel.onCall` (re-registration overwrites). -/
def Channel.onCall (c : Channel) (name : String) (h : HandlerFn) : Channel :=
  { c with _callers := mapSet c._callers name h }

/-- Translation of `Channel.destroy`.  Faithful to the source: `_edges`
is left untouched. -/
def Channel.destroy (c : Channel) : Channel :=
  { c with _callbacks := [], _callers := [], _edgePipes := [],
           _pipes := [], _destroyed := true }

/-- Settlement of the call promise by the stored callback:
`data instanceof Error` rejects, anything else resolves. -/
inductive CallResult where
  | resolved (v : Value) : CallResult
  | rejected (v : Value) : CallResult
deriving DecidableEq, Repr

/-- The resolve-or-reject decision of the callback stored by `call`. -/
def settleData : Value → CallResult
  | Value.verr m => CallResult.rejected (Value.verr m)
  | v => CallResult.resolved v

/-!
Network semantics.  A `Net` is a finite set of channels joined by
point-to-point links (each link is one pipe shared by its two
endpoints, as the worker transports wire it).  Pipe emissions become
queued deliveries; `Net.step` hands the oldest delivery to the listener
the target channel registered for that event in `addPipe`
(`_handleHandshake` for the handshake event, `_handleMessage` for the
message event) and enqueues the emissions this produces, in order
(FIFO, matching per-pipe ordering of the transports).
-/

/-- A queued delivery: a payload travelling to `target` on `pipe`. -/
structure Delivery where
  target : String
  pipe : Nat
  event : String
  pay : Payload
deriving DecidableEq, Repr

/-- A point-to-point link: pipe `pid` joins channels `endA` and `endB`. -/
structure Link where
  pid : Nat
  endA : String
  endB : String
deriving DecidableEq, Repr

/-- Deliveries produced when channel `src` performs one effect: an
emission on pipe `p` reaches the other endpoint of every link with that
pipe id; all other effects are node-local. -/
def deliveriesOfEffect (links : List Link) (src : String) : Effect → List Delivery
  | Effect.emitPipe p ev pay =>
      links.filterMap (fun l =>
        if l.pid = p then
          if l.endA = src then some ⟨l.endB, p, ev, pay⟩
          else if l.endB = src then some ⟨l.endA, p, ev, pay⟩
          else none
        else none)
  | _ => []

/-- Deliveries produced by a list of effects, in order. -/
def deliveriesOf (links : List Link) (src : String) (effs : List Effect) :
    List Delivery :=
  (effs.map (deliveriesOfEffect links src)).flatten

/-- Log of a network run: each processed delivery and each effect,
tagged with the channel it happened at. -/
inductive LogEntry where
  | delivered (dst : String) (d : Delivery) : LogEntry
  | effAt (chanId : String) (e : Effect) : LogEntry
deriving DecidableEq, Repr

/-- Placeholder channel for lookups of an unknown id. -/
def emptyChan : Channel := mkChan "" []

/-- Find a channel by id. -/
def getChanAux : List Channel → String → Channel
  | [], _ => emptyChan
  | c :: cs, cid => if c.id = cid then c else getChanAux cs cid

/-- Replace the channel with the given id. -/
def updateChan : List Channel → String → Channel → List Channel
  | [], _, _ => []
  | c :: cs, cid, c' => if c.id = cid then c' :: cs else c :: updateChan cs cid c'

/-- State of a network run. -/
structure Net where
  chans : List Channel
  links : List Link
  queue : List Delivery
  log : List LogEntry

/-- Find a channel of the net by id. -/
def Net.getChan (n : Net) (cid : String) : Channel :=
  getChanAux n.chans cid

/-- Dispatch of one delivery by the listeners `addPipe` registered:
the handshake event runs `_handleHandshake`, the message event runs
`_handleMessage`. -/
def dispatch (c : Channel) (d : Delivery) : Channel × List Effect :=
  if d.event = hsEvent then
    match d.pay with
    | Payload.hs e => c._handleHandshake d.pipe e
    | _ => (c, [])
  else if d.event = msgEvent then
    match d.pay with
    | Payload.msg m => c._handleMessage d.pipe m
    | _ => (c, [])
  else (c, [])

/-- Process the oldest queued delivery. -/
def Net.step (n : Net) : Net :=
  match n.queue with
  | [] => n
  | d :: rest =>
      let c := n.getChan d.target
      let r := dispatch c d
      { chans := updateChan n.chans d.target r.1,
        links := n.links,
        queue := rest ++ deliveriesOf n.links d.target r.2,
        log := n.log ++ (LogEntry.delivered d.target d ::
          r.2.map (LogEntry.effAt d.target)) }

/-- Run `fuel` steps. -/
def Net.run : Nat → Net → Net
  | 0, n => n
  | k + 1, n => Net.run k n.step

/-!
The concrete three-node setting of the spec: nodes A, B, C wired A-B
(pipe 0) and B-C (pipe 1) only, with a RemoteHost on C answering
`ping` with its input plus one.
-/

/-- The `ping` procedure of the scenario host, composed with the
argument spreading of `RemoteHost` (`fn(...input)`): one numeric
argument, returns it plus one. -/
def pingHandler : HandlerFn := fun v =>
  match v with
  | Value.acons (Value.num n) Value.anil => Except.ok (Value.num (n + 1))
  | _ => Except.error "bad input"

/-- Translation of the `RemoteHost` constructor: register every entry of
the handler map with `onCall`, then `handshakeAll`. -/
def installHost (c : Channel) (procs : List (String × HandlerFn)) :
    Channel × List Effect :=
  let c2 := procs.foldl (fun acc pr => acc.onCall pr.1 pr.2) c
  (c2, c2.handshakeAll)

/-- Translation of `RemoteClient.run`: a `call` addressed to the host. -/
def remoteRun (hostName : String) (c : Channel) (name : String) (args : Value)
    (t now : Nat) : Channel × List Effect × String :=
  c.call { name := name, destination := hostName, data := args } t now

/-- Node A of the scenario. -/
def chanA : Channel := mkChan "A" [0]

/-- Node B of the scenario. -/
def chanB : Channel := mkChan "B" [0, 1]

/-- Node C of the scenario, before its host is installed. -/
def chanC0 : Channel := mkChan "C" [1]

/-- The host installation on C. -/
def hostC : Channel × List Effect := installHost chanC0 [("ping", pingHandler)]

/-- The two links of the scenario. -/
def links3 : List Link := [⟨0, "A", "B"⟩, ⟨1, "B", "C"⟩]

/-- Initial network: all pipes attached, the host on C has just sent its
construction-time handshake broadcast. -/
def net0 : Net :=
  { chans := [chanA, chanB, hostC.1], links := links3,
    queue := deliveriesOf links3 "C" hostC.2, log := [] }

/-- The network after the handshake gossip settles (20 steps are more
than enough; the queue is checked to be empty). -/
def net1 : Net := Net.run 20 net0

/-- Node A issues `run('ping', 1)` with the default 10000 timeout at
time 0. -/
def callRes : Channel × List Effect × String :=
  remoteRun "C" (net1.getChan "A") "ping" (Value.acons (Value.num 1) Value.anil)
    defaultCallTimeout 0

/-- Network at the moment the call's request has been emitted. -/
def net2 : Net :=
  { chans := updateChan net1.chans "A" callRes.1, links := links3,
    queue := deliveriesOf links3 "A" callRes.2.1, log := [] }

/-- The network 40 deliveries into the call. -/
def net3 : Net := Net.run 40 net2

end VapIpc

namespace VapIpc

/-- Log test: a `callResolved` effect at the given channel. -/
def isCallResolvedAt (cid : String) : LogEntry → Bool
  | LogEntry.effAt c (Effect.callResolved _ _) => c = cid
  | _ => false

/-- Log test: a message delivery to `cid` whose payload is addressed to
`dst` and carries nonce `non` (a response bounced through `cid`). -/
def isMsgDeliveredTo (cid dst non : String) : LogEntry → Bool
  | LogEntry.delivered c d =>
      match d.pay with
      | Payload.msg m => c = cid ∧ m.destination = dst ∧ m.nonce = some non
      | _ => false
  | _ => false

end VapIpc

namespace VapIpc

/-!
Invariant of the edge table (claim C8) and the operations that may act
on a channel.
-/

/-- Edge-table invariant: at most one edge per peer id, and no stored
reachable-id set contains the channel's own id. -/
@[reducible]
def edgeInv (c : Channel) : Prop :=
  (mapKeys c._edges).Nodup ∧ ∀ pr ∈ c._edges, c.id ∉ pr.2.channelIds

/-- Monotonic growth of the edge table: every edge survives with the
same key and a superset of its reachable ids. -/
def edgesMono (c c' : Channel) : Prop :=
  ∀ pr ∈ c._edges, ∃ pr' ∈ c'._edges,
    pr'.1 = pr.1 ∧ ∀ x ∈ pr.2.channelIds, x ∈ pr'.2.channelIds

/-- The operations of a `Channel`, as one inductive so invariant
preservation can be stated over all of them. -/
inductive ChanOp where
  | hshake (pipe : Nat) (e : ChannelEdge) : ChanOp
  | hmsg (pipe : Nat) (m : MessageOut) : ChanOp
  | apipe (pipe : Nat) : ChanOp
  | mkCall (md : MessageIn) (t now : Nat) : ChanOp
  | sendOp (md : MessageIn) : ChanOp
  | regCall (name : String) (h : HandlerFn) : ChanOp
  | fireT (nonce : String) : ChanOp
  | destroyOp : ChanOp

/-- State transformation of each operation (`send` only emits). -/
def ChanOp.apply : ChanOp → Channel → Channel
  | ChanOp.hshake p e, c => (c._handleHandshake p e).1
  | ChanOp.hmsg p m, c => (c._handleMessage p m).1
  | ChanOp.apipe p, c => (c.addPipe p).1
  | ChanOp.mkCall md t now, c => (c.call md t now).1
  | ChanOp.sendOp _, c => c
  | ChanOp.regCall nm h, c => c.onCall nm h
  | ChanOp.fireT n, c => (c.fireTimeout n).1
  | ChanOp.destroyOp, c => c.destroy

/-- Well-formedness of an operation's input: an incoming handshake lists
the receiving channel's own id at most once (all handshakes the protocol
itself produces satisfy this, since `getEdge` deduplicates). -/
@[reducible]
def ChanOp.wf (c : Channel) : ChanOp → Prop
  | ChanOp.hshake _ e => countStr e.channelIds c.id ≤ 1
  | _ => True

/-!
Concrete channels used by the counterexamples and witnesses.
-/

/-- A handler that always rejects (for the handler-failure claim). -/
def failHandler : HandlerFn := fun _ => Except.error "boom"

/-- A channel named A with one pipe that has discovered peer B with an
empty reachable set (the state after receiving handshake (B, [])). -/
def chanAB : Channel :=
  ((mkChan "A" [0])._handleHandshake 0 { id := "B", channelIds := [] }).1

/-- A degenerate handshake re-announcing peer B with the receiver's own
id listed twice. -/
def dupSelfHs : ChannelEdge := { id := "B", channelIds := ["A", "A"] }

/-- A host channel H that knows peer S through pipe 7 and registered a
failing handler for ping. -/
def hostH : Channel :=
  (((mkChan "H" [7])._handleHandshake 7 { id := "S", channelIds := [] }).1).onCall
    "ping" failHandler

/-- A client channel W that knows peer Z through pipe 3. -/
def chanWZ : Channel :=
  ((mkChan "W" [3])._handleHandshake 3 { id := "Z", channelIds := [] }).1

/-- A channel that itself hosts a handler for ping (a client and host on
the same node). -/
def cLate : Channel := (mkChan "A" []).onCall "ping" pingHandler

/-- A late/unknown-nonce response addressed to `cLate` whose name
collides with its registered handler. -/
def mLate : MessageOut :=
  { name := "ping", destination := "A", data := Value.num 1, source := "B",
    proxiedBy := none, nonce := some "zz" }

/-- A late/unknown-nonce response addressed to a plain channel with no
handlers. -/
def mLateW : MessageOut :=
  { name := "pong", destination := "A", data := Value.vnull, source := "B",
    proxiedBy := none, nonce := some "k" }

/-- A message to be forwarded by a channel that knows no route. -/
def mNoRoute : MessageOut :=
  { name := "ev", destination := "Z", data := Value.vnull, source := "S",
    proxiedBy := none, nonce := none }

/-- A message for W to forward to its known peer Z. -/
def mToZ : MessageOut :=
  { name := "ev", destination := "Z", data := Value.num 5, source := "S",
    proxiedBy := none, nonce := none }

/-- An incoming call for the failing handler on host H. -/
def mFail : MessageOut :=
  { name := "ping", destination := "H", data := Value.vnull, source := "S",
    proxiedBy := none, nonce := some "n9" }

/-- The client S with a pending call entry for nonce n9. -/
def clientS : Channel :=
  { mkChan "S" [7] with _callbacks := [("n9", 42)] }

/-- The error response that host H produces for `mFail`. -/
def mFailResp : MessageOut :=
  { name := "ping", destination := "S", data := Value.verr "boom",
    source := "H", proxiedBy := none, nonce := some "n9" }

/-- The response Z would send back to W's call (nonce n0). -/
def mRespW : MessageOut :=
  { name := "ping", destination := "W", data := Value.num 7, source := "Z",
    proxiedBy := none, nonce := some "n0" }

/-- The message data of W's call to Z. -/
def mdWZ : MessageIn := { name := "ping", destination := "Z", data := Value.vnull }

/-- A channel with no edges at all (every destination unreachable). -/
def cNoRoute : Channel := mkChan "W" []

/-- A redundant handshake for `chanAB`: peer B re-announces only the
receiver's own id (once). -/
def hsBA : ChannelEdge := { id := "B", channelIds := ["A"] }

/-- A topology-changing handshake: peer B announces a new channel X. -/
def hsBX : ChannelEdge := { id := "B", channelIds := ["X"] }

/-!
Lemmas about the association-map and list helpers.
-/

theorem mapGet_cons {α : Type} (a : String) (b : α) (tl : List (String × α))
    (key : String) :
    mapGet ((a, b) :: tl) key = if a = key then some b else mapGet tl key := rfl

theorem mapSet_cons {α : Type} (a : String) (b : α) (tl : List (String × α))
    (k : String) (v : α) :
    mapSet ((a, b) :: tl) k v =
      if a = k then (k, v) :: tl else (a, b) :: mapSet tl k v := rfl

theorem mapDelete_cons {α : Type} (a : String) (b : α) (tl : List (String × α))
    (k : String) :
    mapDelete ((a, b) :: tl) k =
      if a = k then tl else (a, b) :: mapDelete tl k := rfl

theorem mapGet_mapSet_self {α : Type} (m : List (String × α)) (k : String) (v : α) :
    mapGet (mapSet m k v) k = some v := by
  induction m with
  | nil => simp [mapSet, mapGet]
  | cons hd tl ih =>
      obtain ⟨a, b⟩ := hd
      by_cases h : a = k
      · rw [mapSet_cons, if_pos h, mapGet_cons, if_pos rfl]
      · rw [mapSet_cons, if_neg h, mapGet_cons, if_neg h]
        exact ih

theorem mapGet_mapSet_ne {α : Type} (m : List (String × α)) (k k' : String) (v : α)
    (h : k' ≠ k) : mapGet (mapSet m k v) k' = mapGet m k' := by
  have hkk : ¬ k = k' := fun e => h e.symm
  induction m with
  | nil => simp [mapSet, mapGet, hkk]
  | cons hd tl ih =>
      obtain ⟨a, b⟩ := hd
      by_cases hk : a = k
      · rw [mapSet_cons, if_pos hk, mapGet_cons, if_neg hkk, mapGet_cons,
          if_neg (hk ▸ hkk)]
      · rw [mapSet_cons, if_neg hk, mapGet_cons, mapGet_cons]
        by_cases hk' : a = k'
        · rw [if_pos hk', if_pos hk']
        · rw [if_neg hk', if_neg hk']
          exact ih

theorem mapGet_some_mem {α : Type} {m : List (String × α)} {k : String} {v : α}
    (h : mapGet m k = some v) : (k, v) ∈ m := by
  induction m with
  | nil => simp [mapGet] at h
  | cons hd tl ih =>
      obtain ⟨a, b⟩ := hd
      by_cases hk : a = k
      · rw [mapGet_cons, if_pos hk] at h
        subst hk
        rw [Option.some_inj] at h
        subst h
        exact List.mem_cons_self _ _
      · rw [mapGet_cons, if_neg hk] at h
        exact List.mem_cons_of_mem _ (ih h)

theorem mapGet_eq_none_iff {α : Type} {m : List (String × α)} {k : String} :
    mapGet m k = none ↔ k ∉ mapKeys m := by
  induction m with
  | nil => simp [mapGet, mapKeys]
  | cons hd tl ih =>
      obtain ⟨a, b⟩ := hd
      by_cases hk : a = k
      · simp [mapGet_cons, hk, mapKeys]
      · simp only [mapGet_cons, if_neg hk, mapKeys, List.map_cons,
          List.mem_cons] at ih ⊢
        rw [ih]
        constructor
        · rintro hnk (hx | hx)
          · exact hk hx.symm
          · exact hnk hx
        · intro hnk hx
          exact hnk (Or.inr hx)

theorem mapSet_of_get_none {α : Type} {m : List (String × α)} {k : String}
    (v : α) (h : mapGet m k = none) : mapSet m k v = m ++ [(k, v)] := by
  induction m with
  | nil => simp [mapSet]
  | cons hd tl ih =>
      obtain ⟨a, b⟩ := hd
      by_cases hk : a = k
      · rw [mapGet_cons, if_pos hk] at h
        exact absurd h (by simp)
      · rw [mapGet_cons, if_neg hk] at h
        rw [mapSet_cons, if_neg hk, ih h]
        rfl

theorem mapKeys_mapSet_of_mem {α : Type} {m : List (String × α)} {k : String}
    {v0 : α} (v : α) (h : mapGet m k = some v0) :
    mapKeys (mapSet m k v) = mapKeys m := by
  induction m with
  | nil => simp [mapGet] at h
  | cons hd tl ih =>
      obtain ⟨a, b⟩ := hd
      by_cases hk : a = k
      · rw [mapSet_cons, if_pos hk]
        subst hk
        rfl
      · rw [mapGet_cons, if_neg hk] at h
        rw [mapSet_cons, if_neg hk]
        show a :: mapKeys (mapSet tl k v) = a :: mapKeys tl
        rw [ih h]

theorem mem_mapSet {α : Type} {m : List (String × α)} {k : String} {v : α}
    {pr : String × α} (h : pr ∈ mapSet m k v) : pr ∈ m ∨ pr = (k, v) := by
  induction m with
  | nil =>
      simp [mapSet] at h
      right
      exact h
  | cons hd tl ih =>
      obtain ⟨a, b⟩ := hd
      by_cases hk : a = k
      · rw [mapSet_cons, if_pos hk] at h
        rcases List.mem_cons.1 h with h | h
        · right; exact h
        · left; exact List.mem_cons_of_mem _ h
      · rw [mapSet_cons, if_neg hk] at h
        rcases List.mem_cons.1 h with h | h
        · left; exact h ▸ List.mem_cons_self _ _
        · rcases ih h with h' | h'
          · left; exact List.mem_cons_of_mem _ h'
          · right; exact h'

theorem mem_mapSet_of_ne {α : Type} {m : List (String × α)} {k : String} {v : α}
    {pr : String × α} (h : pr ∈ m) (hne : pr.1 ≠ k) : pr ∈ mapSet m k v := by
  induction m with
  | nil => simp at h
  | cons hd tl ih =>
      obtain ⟨a, b⟩ := hd
      by_cases hk : a = k
      · rw [mapSet_cons, if_pos hk]
        rcases List.mem_cons.1 h with h | h
        · exact absurd (by rw [h]; exact hk) hne
        · exact List.mem_cons_of_mem _ h
      · rw [mapSet_cons, if_neg hk]
        rcases List.mem_cons.1 h with h | h
        · exact h ▸ List.mem_cons_self _ _
        · exact List.mem_cons_of_mem _ (ih h)

theorem self_mem_mapSet {α : Type} (m : List (String × α)) (k : String) (v : α) :
    (k, v) ∈ mapSet m k v := by
  induction m with
  | nil => simp [mapSet]
  | cons hd tl ih =>
      obtain ⟨a, b⟩ := hd
      by_cases hk : a = k
      · rw [mapSet_cons, if_pos hk]
        exact List.mem_cons_self _ _
      · rw [mapSet_cons, if_neg hk]
        exact List.mem_cons_of_mem _ ih

theorem mapGet_of_mem_nodup {α : Type} {m : List (String × α)}
    (hnd : (mapKeys m).Nodup) {pr : String × α} (h : pr ∈ m) :
    mapGet m pr.1 = some pr.2 := by
  induction m with
  | nil => simp at h
  | cons hd tl ih =>
      obtain ⟨a, b⟩ := hd
      have hnd' : a ∉ mapKeys tl ∧ (mapKeys tl).Nodup := by
        have := hnd
        rw [mapKeys, List.map_cons, List.nodup_cons] at this
        exact this
      rcases List.mem_cons.1 h with h | h
      · subst h
        rw [mapGet_cons, if_pos rfl]
      · have hk : ¬ a = pr.1 := by
          intro hcontra
          exact hnd'.1 (hcontra ▸ List.mem_map_of_mem Prod.fst h)
        rw [mapGet_cons, if_neg hk]
        exact ih hnd'.2 h

theorem mapDelete_mapSet_of_none {α : Type} {m : List (String × α)} {k : String}
    (v : α) (h : mapGet m k = none) : mapDelete (mapSet m k v) k = m := by
  induction m with
  | nil => simp [mapSet, mapDelete]
  | cons hd tl ih =>
      obtain ⟨a, b⟩ := hd
      by_cases hk : a = k
      · rw [mapGet_cons, if_pos hk] at h
        exact absurd h (by simp)
      · rw [mapGet_cons, if_neg hk] at h
        rw [mapSet_cons, if_neg hk, mapDelete_cons, if_neg hk, ih h]

theorem mem_filterNew {x : String} {xs known : List String} :
    x ∈ filterNew xs known ↔ x ∈ xs ∧ x ∉ known := by
  induction xs with
  | nil => simp [filterNew]
  | cons hd tl ih =>
      by_cases h : hd ∈ known
      · rw [filterNew, if_pos h]
        rw [List.mem_cons]
        constructor
        · intro hx
          exact ⟨Or.inr (ih.1 hx).1, (ih.1 hx).2⟩
        · rintro ⟨hx | hx, hnk⟩
          · exact absurd (hx ▸ h) hnk
          · exact ih.2 ⟨hx, hnk⟩
      · rw [filterNew, if_neg h]
        rw [List.mem_cons, List.mem_cons]
        constructor
        · rintro (hx | hx)
          · exact ⟨Or.inl hx, hx ▸ h⟩
          · exact ⟨Or.inr (ih.1 hx).1, (ih.1 hx).2⟩
        · rintro ⟨hx | hx, hnk⟩
          · exact Or.inl hx
          · exact Or.inr (ih.2 ⟨hx, hnk⟩)

theorem countStr_filterNew_le (xs known : List String) (b : String) :
    countStr (filterNew xs known) b ≤ countStr xs b := by
  induction xs with
  | nil => simp [filterNew, countStr]
  | cons hd tl ih =>
      by_cases h : hd ∈ known
      · rw [filterNew, if_pos h]
        by_cases hb : hd = b
        · rw [countStr, if_pos hb]
          exact Nat.le_succ_of_le ih
        · rw [countStr, if_neg hb]
          exact ih
      · rw [filterNew, if_neg h]
        by_cases hb : hd = b
        · rw [countStr, if_pos hb, countStr, if_pos hb]
          exact Nat.succ_le_succ ih
        · rw [countStr, if_neg hb, countStr, if_neg hb]
          exact ih

theorem not_mem_of_countStr_zero {xs : List String} {b : String}
    (h : countStr xs b = 0) : b ∉ xs := by
  induction xs with
  | nil => simp
  | cons hd tl ih =>
      by_cases hb : hd = b
      · rw [countStr, if_pos hb] at h
        exact absurd h (Nat.succ_ne_zero _)
      · rw [countStr, if_neg hb] at h
        simp only [List.mem_cons]
        rintro (hx | hx)
        · exact hb hx.symm
        · exact ih h hx

theorem not_mem_eraseFirst_of_count_le_one {xs : List String} {b : String}
    (h : countStr xs b ≤ 1) : b ∉ eraseFirst xs b := by
  induction xs with
  | nil => simp [eraseFirst]
  | cons hd tl ih =>
      by_cases hb : hd = b
      · rw [eraseFirst, if_pos hb]
        rw [countStr, if_pos hb] at h
        exact not_mem_of_countStr_zero (Nat.le_zero.1 (Nat.le_of_succ_le_succ h))
      · rw [eraseFirst, if_neg hb]
        rw [countStr, if_neg hb] at h
        simp only [List.mem_cons]
        rintro (hx | hx)
        · exact hb hx.symm
        · exact ih h hx

theorem eraseFirst_eq_nil_of_all_eq {xs : List String} {b : String}
    (hall : ∀ x ∈ xs, x = b) (h : countStr xs b ≤ 1) : eraseFirst xs b = [] := by
  cases xs with
  | nil => rfl
  | cons hd tl =>
      have hb : hd = b := hall hd (List.mem_cons_self _ _)
      rw [eraseFirst, if_pos hb]
      rw [countStr, if_pos hb] at h
      have : countStr tl b = 0 := Nat.le_zero.1 (Nat.le_of_succ_le_succ h)
      cases tl with
      | nil => rfl
      | cons h2 t2 =>
          have hb2 : h2 = b := hall h2 (by simp)
          rw [countStr, if_pos hb2] at this
          exact absurd this (Nat.succ_ne_zero _)

theorem not_mem_removeAllStr (xs : List String) (b : String) :
    b ∉ removeAllStr xs b := by
  induction xs with
  | nil => simp [removeAllStr]
  | cons hd tl ih =>
      by_cases hb : hd = b
      · rw [removeAllStr, if_pos hb]; exact ih
      · rw [removeAllStr, if_neg hb]
        simp only [List.mem_cons]
        rintro (hx | hx)
        · exact hb hx.symm
        · exact ih hx

/-!
Structural lemmas about the channel operations.
-/

/-- Message handling never touches the edge table. -/
theorem handleMessage_edges (c : Channel) (p : Nat) (m : MessageOut) :
    (c._handleMessage p m).1._edges = c._edges := by
  unfold Channel._handleMessage
  split
  · rfl
  · split
    · split
      · rfl
      · split
        · rfl
        · split
          · rfl
          · rfl
    · rfl

/-- Message handling never changes the channel id. -/
theorem handleMessage_id (c : Channel) (p : Nat) (m : MessageOut) :
    (c._handleMessage p m).1.id = c.id := by
  unfold Channel._handleMessage
  split
  · rfl
  · split
    · split
      · rfl
      · split
        · rfl
        · split
          · rfl
          · rfl
    · rfl

/-- The timeout transition never touches the edge table or the id. -/
theorem fireTimeout_edges (c : Channel) (n : String) :
    (c.fireTimeout n).1._edges = c._edges ∧ (c.fireTimeout n).1.id = c.id := by
  unfold Channel.fireTimeout
  split
  · exact ⟨rfl, rfl⟩
  · exact ⟨rfl, rfl⟩

/-- A message addressed to this channel that carries a nonce with no
pending entry and whose name has no registered handler is a no-op. -/
theorem handleMessage_unmatched_noop (c : Channel) (p : Nat) (m : MessageOut)
    (n : String) (hn : m.nonce = some n) (hdst : m.destination = c.id)
    (hcb : mapGet c._callbacks n = none)
    (hca : mapGet c._callers m.name = none) :
    c._handleMessage p m = (c, []) := by
  unfold Channel._handleMessage
  by_cases hp : m.proxiedBy = some c.id
  · rw [if_pos hp]
  · rw [if_neg hp, if_pos hdst]
    simp only [hn, hcb, hca]

/-!
Claim C1 — late/unknown-nonce responses.
-/

/-- C1 (counterexample): the claim that a message with an unmatched
nonce addressed to this channel is always a no-op is false.  On a
channel that also hosts a handler under the response's name, the
unmatched response falls through to the call branch and the local
handler is invoked. -/
theorem c1_counterexample :
    (cLate._handleMessage 0 mLate).2 = [Effect.handlerInvoked "ping" (Value.num 1)] := rfl

/-- C1 (amended): an incoming message carrying a nonce, addressed to
this channel, with no matching pending-call entry and with no handler
registered under its name, is a no-op: state unchanged, no handler
invoked, nothing emitted. -/
theorem c1_late_response_dropped (c : Channel) (p : Nat) (m : MessageOut)
    (n : String) (hn : m.nonce = some n) (hdst : m.destination = c.id)
    (hcb : mapGet c._callbacks n = none)
    (hca : mapGet c._callers m.name = none) :
    c._handleMessage p m = (c, []) :=
  handleMessage_unmatched_noop c p m n hn hdst hcb hca

/-- C1 witness: the amended no-op at a concrete channel and message. -/
theorem c1_witness :
    mLateW.nonce = some "k" ∧
    (mkChan "A" [])._handleMessage 0 mLateW = (mkChan "A" [], []) :=
  ⟨rfl, c1_late_response_dropped (mkChan "A" []) 0 mLateW "k" rfl rfl rfl rfl⟩

/-!
Claim C2 — addPipe.
-/

/-- C2 (counterexample): `addPipe` does not emit a handshake on the new
pipe — its effect list is empty (the pipe is recorded, nothing more). -/
theorem c2_counterexample :
    ((mkChan "A" []).addPipe 0).2 = [] ∧
    ((mkChan "A" []).addPipe 0).1._pipes = [0] :=
  ⟨rfl, rfl⟩

/-- C2 (amended): `addPipe` subscribes the channel to the two reserved
events (modelled by `dispatch` routing deliveries on attached pipes into
`_handleHandshake`/`_handleMessage`) and appends the pipe, emitting
nothing; handshakes are only sent by `handshakeAll` (e.g. at RemoteHost
construction or on receipt of new topology). -/
theorem c2_addPipe_registers_only (c : Channel) (p : Nat) :
    c.addPipe p = ({ c with _pipes := c._pipes ++ [p] }, []) := rfl

/-!
Claim C3 — destroy.
-/

/-- C3 (counterexample): `destroy` does not clear the edge table: on a
channel that has discovered a peer, `_edges` is still nonempty after
`destroy()`. -/
theorem c3_counterexample : chanAB.destroy._edges ≠ [] := by decide

/-- C3 (amended): `destroy` empties the pending-call map, the handler
map, the edge-to-pipe map and the pipe list and marks the channel
destroyed, but leaves the edge table exactly as it was. -/
theorem c3_destroy_clears (c : Channel) :
    c.destroy._callbacks = [] ∧ c.destroy._callers = [] ∧
    c.destroy._edgePipes = [] ∧ c.destroy._pipes = [] ∧
    c.destroy._destroyed = true ∧ c.destroy._edges = c._edges :=
  ⟨rfl, rfl, rfl, rfl, rfl, rfl⟩

/-!
Claim C9 — proxy forwarding.
-/

/-- C9 (counterexample): a message whose destination is not this channel
and which was not proxied by it is not always re-emitted: when no route
to the destination is known, nothing is emitted at all (silent drop). -/
theorem c9_counterexample :
    mNoRoute.destination ≠ (mkChan "A" []).id ∧
    mNoRoute.proxiedBy ≠ some (mkChan "A" []).id ∧
    ((mkChan "A" [])._handleMessage 0 mNoRoute).2 = [] := by
  refine ⟨by decide, by decide, rfl⟩

/-- C9 (amended): when the destination is not this channel, the message
was not proxied by this channel, and a route (edge and pipe) to the
destination is known, the channel re-emits the message on that pipe with
`proxiedBy` stamped to its own id and every other field unchanged. -/
theorem c9_forwarding (c : Channel) (p : Nat) (m : MessageOut) (eid : String)
    (pp : Nat) (hpb : ¬ m.proxiedBy = some c.id)
    (hdst : ¬ m.destination = c.id)
    (hr : c.findEdgeId m.destination = some eid)
    (hp : mapGet c._edgePipes eid = some pp) :
    c._handleMessage p m =
      (c, [Effect.emitPipe pp msgEvent
        (Payload.msg { m with proxiedBy := some c.id })])
    ∧ ({ m with proxiedBy := some c.id } : MessageOut).name = m.name
    ∧ ({ m with proxiedBy := some c.id } : MessageOut).source = m.source
    ∧ ({ m with proxiedBy := some c.id } : MessageOut).destination = m.destination
    ∧ ({ m with proxiedBy := some c.id } : MessageOut).data = m.data
    ∧ ({ m with proxiedBy := some c.id } : MessageOut).nonce = m.nonce := by
  refine ⟨?_, rfl, rfl, rfl, rfl, rfl⟩
  unfold Channel._handleMessage
  rw [if_neg hpb, if_neg hdst]
  simp only [Channel._emitMessage, hr, hp]

/-- C9 witness: concrete forwarding by W toward its known peer Z. -/
theorem c9_witness :
    chanWZ.findEdgeId mToZ.destination = some "Z" ∧
    chanWZ._handleMessage 0 mToZ =
      (chanWZ, [Effect.emitPipe 3 msgEvent
        (Payload.msg { mToZ with proxiedBy := some "W" })]) :=
  ⟨by decide,
   (c9_forwarding chanWZ 0 mToZ "Z" 3 (by decide) (by decide) (by decide)
     (by decide)).1⟩

/-!
Claim C4 — the three-node proxied-call scenario.
-/

/-- C4 (code bug): in the A-B-C line topology the handshakes settle and
`A.findEdgeId C = B` as claimed, but the call does not resolve with 2.
C's gossip re-announces A back to B, so B's edge for C lists A; B's
`findEdgeId` scans edges in insertion order (C was inserted first) and
therefore routes the response for A back to C.  The response ping-pongs
between B and C (each stamps its own id as `proxiedBy`, so neither drops
it), A never receives it, its pending entry survives, and the call can
only end by timeout. -/
theorem c4_proxied_call_misrouted :
    (net1.getChan "A").findEdgeId "C" = some "B"
    ∧ net1.queue = []
    ∧ (net1.getChan "B").findEdgeId "A" = some "C"
    ∧ net3.log.filter (isCallResolvedAt "A") = []
    ∧ net3.log.filter (isMsgDeliveredTo "A" "A" "n0") = []
    ∧ net3.queue ≠ []
    ∧ 2 ≤ (net3.log.filter (isMsgDeliveredTo "C" "A" "n0")).length
    ∧ mapGet (net3.getChan "A")._callbacks "n0" = some (0 + defaultCallTimeout)
    ∧ ((net3.getChan "A").fireTimeout "n0").2 = [Effect.timeoutReject "n0"] := by
  decide

/-!
Claim C5 — timeout of unanswered calls.
-/

/-- C5 (confirmed): issuing `call` registers the fresh nonce with
deadline exactly `now + t` (default timeout 10000); when the destination
is unreachable nothing is even emitted; the timeout transition at the
deadline rejects the call with the timeout error and removes the
pending entry; and a destination with no handler for the name (and no
pending entry for the nonce) answers the request with a no-op, so no
response can preempt the timeout. -/
theorem c5_call_timeout (c : Channel) (md : MessageIn) (t now : Nat)
    (hfresh : mapGet c._callbacks c.createNonce = none)
    (hroute : c.findEdgeId md.destination = none) :
    defaultCallTimeout = 10000
    ∧ mapGet (c.call md t now).1._callbacks c.createNonce = some (now + t)
    ∧ (c.call md t now).2.1 = []
    ∧ ((c.call md t now).1.fireTimeout c.createNonce).2 =
        [Effect.timeoutReject c.createNonce]
    ∧ ((c.call md t now).1.fireTimeout c.createNonce).1._callbacks = c._callbacks
    ∧ mapGet ((c.call md t now).1.fireTimeout c.createNonce).1._callbacks
        c.createNonce = none
    ∧ (∀ (d : Channel) (p : Nat) (m : MessageOut),
        m.nonce = some c.createNonce → m.destination = d.id →
        mapGet d._callbacks c.createNonce = none →
        mapGet d._callers m.name = none → d._handleMessage p m = (d, [])) := by
  have e1 : (c.call md t now).1._callbacks =
      mapSet c._callbacks c.createNonce (now + t) := rfl
  have e2 : mapGet (c.call md t now).1._callbacks c.createNonce =
      some (now + t) := by
    rw [e1]
    exact mapGet_mapSet_self _ _ _
  have e3 : (c.call md t now).1.fireTimeout c.createNonce =
      ({ (c.call md t now).1 with
         _callbacks := mapDelete (c.call md t now).1._callbacks c.createNonce },
       [Effect.timeoutReject c.createNonce]) := by
    unfold Channel.fireTimeout
    rw [e2]
  have e4 : ((c.call md t now).1.fireTimeout c.createNonce).1._callbacks =
      c._callbacks := by
    rw [e3]
    show mapDelete (c.call md t now).1._callbacks c.createNonce = c._callbacks
    rw [e1]
    exact mapDelete_mapSet_of_none _ hfresh
  refine ⟨rfl, e2, ?_, by rw [e3], e4, by rw [e4]; exact hfresh,
    fun d p m hn hdst hcb hca =>
      handleMessage_unmatched_noop d p m c.createNonce hn hdst hcb hca⟩
  show (c.call md t now).1._emitMessage
    { name := md.name, destination := md.destination, data := md.data,
      source := c.id, proxiedBy := none, nonce := some c.createNonce } = []
  have e5 : (c.call md t now).1.findEdgeId md.destination = none := hroute
  simp only [Channel._emitMessage, e5]

/-- C5 witness: a call from a channel with no routes, 50-unit timeout. -/
theorem c5_witness :
    mapGet cNoRoute._callbacks cNoRoute.createNonce = none ∧
    mapGet (cNoRoute.call mdWZ 50 0).1._callbacks cNoRoute.createNonce =
      some (0 + 50) ∧
    (cNoRoute.call mdWZ 50 0).2.1 = [] ∧
    ((cNoRoute.call mdWZ 50 0).1.fireTimeout cNoRoute.createNonce).2 =
      [Effect.timeoutReject cNoRoute.createNonce] :=
  ⟨rfl,
   (c5_call_timeout cNoRoute mdWZ 50 0 rfl rfl).2.1,
   (c5_call_timeout cNoRoute mdWZ 50 0 rfl rfl).2.2.1,
   (c5_call_timeout cNoRoute mdWZ 50 0 rfl rfl).2.2.2.1⟩

/-!
Claim C6 — handler failure propagation.
-/

/-- C6 (confirmed): when a call reaches a host whose registered handler
fails, the failure is caught, converted to an error payload and sent
back as the call's response toward the caller; and at the caller the
response settles the pending call, the stored callback rejecting because
the payload is an error value. -/
theorem c6_handler_failure (c : Channel) (p : Nat) (m : MessageOut) (n : String)
    (h : HandlerFn) (emsg : String) (rid : String) (pp : Nat)
    (hpb : ¬ m.proxiedBy = some c.id) (hdst : m.destination = c.id)
    (hn : m.nonce = some n) (hcb : mapGet c._callbacks n = none)
    (hca : mapGet c._callers m.name = some h)
    (herr : h m.data = Except.error emsg)
    (hr : c.findEdgeId m.source = some rid)
    (hp : mapGet c._edgePipes rid = some pp) :
    c._handleMessage p m =
      (c, [Effect.handlerInvoked m.name m.data,
           Effect.emitPipe pp msgEvent (Payload.msg
             { name := m.name, destination := m.source,
               data := Value.verr emsg, source := c.id,
               proxiedBy := none, nonce := some n })])
    ∧ settleData (Value.verr emsg) = CallResult.rejected (Value.verr emsg)
    ∧ (∀ (cc : Channel) (q : Nat) (resp : MessageOut) (dl : Nat),
        resp.destination = cc.id → resp.nonce = some n →
        ¬ resp.proxiedBy = some cc.id → resp.data = Value.verr emsg →
        mapGet cc._callbacks n = some dl →
        cc._handleMessage q resp =
          ({ cc with _callbacks := mapDelete cc._callbacks n },
           [Effect.callResolved n (Value.verr emsg)])) := by
  refine ⟨?_, rfl, ?_⟩
  · unfold Channel._handleMessage
    rw [if_neg hpb, if_pos hdst]
    simp only [hn, hcb, hca, herr, respData, Channel._emitMessage, hr, hp]
  · intro cc q resp dl hdst' hn' hpb' hdata hcb'
    unfold Channel._handleMessage
    rw [if_neg hpb', if_pos hdst']
    simp only [hn', hcb', hdata]

/-- C6 witness: the failing ping handler on host H answers with an error
payload toward S, and S's pending call is settled with that error. -/
theorem c6_witness :
    hostH._handleMessage 0 mFail =
      (hostH, [Effect.handlerInvoked "ping" Value.vnull,
               Effect.emitPipe 7 msgEvent (Payload.msg mFailResp)])
    ∧ clientS._handleMessage 7 mFailResp =
        ({ clientS with _callbacks := mapDelete clientS._callbacks "n9" },
         [Effect.callResolved "n9" (Value.verr "boom")]) :=
  ⟨(c6_handler_failure hostH 0 mFail "n9" failHandler "boom" "S" 7
      (by decide) rfl rfl rfl rfl rfl (by decide) (by decide)).1,
   (c6_handler_failure hostH 0 mFail "n9" failHandler "boom" "S" 7
      (by decide) rfl rfl rfl rfl rfl (by decide) (by decide)).2.2 clientS 7
     mFailResp 42 rfl rfl (by decide) rfl rfl⟩

/-!
Claim C10 — registration happens before emission.
-/

/-- C10 (confirmed): `call` registers the pending entry (with its
deadline) before emitting anything: the request emission is computed
from the already-updated state, and a response delivered synchronously
to that state (as an in-process Port pipe does during the emit) finds
the entry and settles the call. -/
theorem c10_register_before_emit (c : Channel) (md : MessageIn) (t now : Nat) :
    mapGet (c.call md t now).1._callbacks c.createNonce = some (now + t)
    ∧ (c.call md t now).2.1 =
        (c.call md t now).1._emitMessage
          { name := md.name, destination := md.destination, data := md.data,
            source := c.id, proxiedBy := none, nonce := some c.createNonce }
    ∧ (∀ (q : Nat) (resp : MessageOut),
        resp.destination = c.id → resp.nonce = some c.createNonce →
        ¬ resp.proxiedBy = some c.id →
        (c.call md t now).1._handleMessage q resp =
          ({ (c.call md t now).1 with
             _callbacks := mapDelete (c.call md t now).1._callbacks
               c.createNonce },
           [Effect.callResolved c.createNonce resp.data])) := by
  have e1 : (c.call md t now).1._callbacks =
      mapSet c._callbacks c.createNonce (now + t) := rfl
  have e2 : mapGet (c.call md t now).1._callbacks c.createNonce =
      some (now + t) := by
    rw [e1]
    exact mapGet_mapSet_self _ _ _
  refine ⟨e2, rfl, ?_⟩
  intro q resp hdst hn hpb
  have hid : (c.call md t now).1.id = c.id := rfl
  unfold Channel._handleMessage
  rw [hid, if_neg hpb, if_pos hdst]
  simp only [hn, e2, hid]

/-- C10 witness: W's call to Z at timeout 50, with the matching response
settling the pending entry of the post-registration state. -/
theorem c10_witness :
    mapGet (chanWZ.call mdWZ 50 0).1._callbacks "n0" = some (0 + 50)
    ∧ (chanWZ.call mdWZ 50 0).1._handleMessage 3 mRespW =
        ({ (chanWZ.call mdWZ 50 0).1 with
           _callbacks := mapDelete (chanWZ.call mdWZ 50 0).1._callbacks "n0" },
         [Effect.callResolved "n0" (Value.num 7)]) :=
  ⟨(c10_register_before_emit chanWZ mdWZ 50 0).1,
   (c10_register_before_emit chanWZ mdWZ 50 0).2.2 3 mRespW rfl rfl (by decide)⟩

/-!
Claim C7 — idempotence of redundant handshakes.
-/

/-- C7 (counterexample): a redundant handshake is not always a no-op.
For known peer B with recorded set [] a handshake announcing ["A", "A"]
(the receiver's own id, twice) has no announced id outside the
receiver's own id, yet the splice removes only one copy, so the edge is
updated and a re-broadcast storm is triggered. -/
theorem c7_counterexample :
    mapGet chanAB._edges "B" = some { id := "B", channelIds := [] }
    ∧ (∀ x ∈ dupSelfHs.channelIds, x = chanAB.id ∨ x ∈ ([] : List String))
    ∧ (chanAB._handleHandshake 0 dupSelfHs).1._edges ≠ chanAB._edges
    ∧ (chanAB._handleHandshake 0 dupSelfHs).2 ≠ [] := by
  decide

/-- C7 (amended): re-delivering a handshake for an already-known peer
whose announced ids (apart from the receiver's own id) are all already
recorded is a no-op — state identical, no edge-discovered notification,
no re-broadcast — provided the announced list mentions the receiver's
own id at most once (true of every handshake the protocol generates,
since `getEdge` deduplicates). -/
theorem c7_redundant_handshake_noop (c : Channel) (p : Nat) (e : ChannelEdge)
    (prev : ChannelEdge) (hprev : mapGet c._edges e.id = some prev)
    (hknown : ∀ x ∈ e.channelIds, x = c.id ∨ x ∈ prev.channelIds)
    (hcount : countStr e.channelIds c.id ≤ 1) :
    c._handleHandshake p e = (c, []) := by
  have hall : ∀ x ∈ filterNew e.channelIds prev.channelIds, x = c.id := by
    intro x hx
    rcases mem_filterNew.1 hx with ⟨hxs, hnk⟩
    rcases hknown x hxs with h | h
    · exact h
    · exact absurd h hnk
  have hcnt2 : countStr (filterNew e.channelIds prev.channelIds) c.id ≤ 1 :=
    le_trans (countStr_filterNew_le _ _ _) hcount
  have hnil : eraseFirst (filterNew e.channelIds prev.channelIds) c.id = [] :=
    eraseFirst_eq_nil_of_all_eq hall hcnt2
  unfold Channel._handleHandshake
  by_cases hself : c.id = e.id
  · rw [if_pos hself]
  · rw [if_neg hself]
    simp only [hprev, hnil, if_pos]

/-- C7 witness: the redundant no-op at a concrete channel. -/
theorem c7_witness :
    mapGet chanAB._edges "B" = some { id := "B", channelIds := [] }
    ∧ chanAB._handleHandshake 0 hsBA = (chanAB, []) :=
  ⟨by decide,
   c7_redundant_handshake_noop chanAB 0 hsBA { id := "B", channelIds := [] }
     (by decide) (by decide) (by decide)⟩

/-!
Claim C8 — edge-table invariant.
-/

/-- C8 (counterexample): invariant preservation fails on a degenerate
handshake: re-announcing the receiver's own id twice stores the own id
in the peer's reachable set. -/
theorem c8_counterexample :
    edgeInv chanAB
    ∧ countStr dupSelfHs.channelIds chanAB.id = 2
    ∧ mapGet (chanAB._handleHandshake 0 dupSelfHs).1._edges "B" =
        some { id := "B", channelIds := ["A"] }
    ∧ ¬ edgeInv (chanAB._handleHandshake 0 dupSelfHs).1 := by
  decide

/-- Invariance and monotonicity transfer along equal edge tables. -/
theorem edgeInv_of_eq {c c' : Channel} (hid : c'.id = c.id)
    (h : c'._edges = c._edges) (hi : edgeInv c) : edgeInv c' := by
  unfold edgeInv at hi ⊢
  rw [hid, h]
  exact hi

/-- A channel whose edge table is unchanged trivially grew monotonically. -/
theorem edgesMono_of_eq {c c' : Channel} (h : c'._edges = c._edges) :
    edgesMono c c' := by
  intro pr hpr
  refine ⟨pr, ?_, rfl, fun x hx => hx⟩
  rw [h]
  exact hpr

/-- Handshake handling preserves the edge invariant and grows edges
monotonically, provided the handshake lists the receiver's own id at
most once. -/
theorem handleHandshake_inv (c : Channel) (p : Nat) (e : ChannelEdge)
    (hinv : edgeInv c) (hwf : countStr e.channelIds c.id ≤ 1) :
    edgeInv (c._handleHandshake p e).1 ∧ edgesMono c (c._handleHandshake p e).1 := by
  unfold Channel._handleHandshake
  by_cases hself : c.id = e.id
  · rw [if_pos hself]
    exact ⟨hinv, edgesMono_of_eq rfl⟩
  · rw [if_neg hself]
    cases hprev : mapGet c._edges e.id with
    | some prevEdge =>
        by_cases hnil : eraseFirst (filterNew e.channelIds prevEdge.channelIds) c.id = []
        · simp only [hnil, if_pos]
          exact ⟨hinv, edgesMono_of_eq rfl⟩
        · simp only [hnil, if_neg, reduceIte]
          set new2 := eraseFirst (filterNew e.channelIds prevEdge.channelIds) c.id with hn2
          set merged : ChannelEdge :=
            { id := e.id, channelIds := prevEdge.channelIds ++ new2 } with hmg
          have hprevMem : (e.id, prevEdge) ∈ c._edges := mapGet_some_mem hprev
          have hownPrev : c.id ∉ prevEdge.channelIds := hinv.2 _ hprevMem
          have hownNew : c.id ∉ new2 :=
            not_mem_eraseFirst_of_count_le_one
              (le_trans (countStr_filterNew_le _ _ _) hwf)
          constructor
          · constructor
            · show (mapKeys (mapSet c._edges e.id merged)).Nodup
              rw [mapKeys_mapSet_of_mem merged hprev]
              exact hinv.1
            · intro pr hpr
              rcases mem_mapSet hpr with h | h
              · exact hinv.2 _ h
              · rw [h]
                show c.id ∉ prevEdge.channelIds ++ new2
                rw [List.mem_append]
                rintro (hx | hx)
                · exact hownPrev hx
                · exact hownNew hx
          · intro pr hpr
            by_cases hk : pr.1 = e.id
            · have hget : mapGet c._edges pr.1 = some pr.2 :=
                mapGet_of_mem_nodup hinv.1 hpr
              rw [hk, hprev] at hget
              have hpr2 : pr.2 = prevEdge := (Option.some_inj.1 hget).symm
              refine ⟨(e.id, merged), self_mem_mapSet _ _ _, hk.symm, ?_⟩
              intro x hx
              rw [hpr2] at hx
              show x ∈ prevEdge.channelIds ++ new2
              rw [List.mem_append]
              exact Or.inl hx
            · exact ⟨pr, mem_mapSet_of_ne hpr hk, rfl, fun x hx => hx⟩
    | none =>
        simp only []
        set fresh : ChannelEdge :=
          { id := e.id, channelIds := removeAllStr e.channelIds c.id } with hf
        have happ : mapSet c._edges e.id fresh = c._edges ++ [(e.id, fresh)] :=
          mapSet_of_get_none fresh hprev
        constructor
        · constructor
          · show (mapKeys (mapSet c._edges e.id fresh)).Nodup
            rw [happ]
            unfold mapKeys
            rw [List.map_append]
            rw [List.nodup_append]
            refine ⟨hinv.1, List.nodup_singleton _, ?_⟩
            intro a ha hb
            rcases List.mem_singleton.1 hb with rfl
            exact (mapGet_eq_none_iff.1 hprev) ha
          · intro pr hpr
            rcases mem_mapSet hpr with h | h
            · exact hinv.2 _ h
            · rw [h]
              exact not_mem_removeAllStr _ _
        · intro pr hpr
          refine ⟨pr, ?_, rfl, fun x hx => hx⟩
          rw [happ]
          exact List.mem_append_left _ hpr

/-- C8 (amended): every channel operation preserves the edge-table
invariant (one edge per peer, own id never stored) and only ever grows
the recorded reachable sets, provided incoming handshake payloads list
the receiving channel's own id at most once (which every
protocol-generated handshake does, as `getEdge` deduplicates). -/
theorem c8_edge_invariant (op : ChanOp) (c : Channel) (hinv : edgeInv c)
    (hwf : op.wf c) :
    edgeInv (op.apply c) ∧ edgesMono c (op.apply c) := by
  cases op with
  | hshake p e => exact handleHandshake_inv c p e hinv hwf
  | hmsg p m =>
      exact ⟨edgeInv_of_eq (handleMessage_id c p m) (handleMessage_edges c p m)
        hinv, edgesMono_of_eq (handleMessage_edges c p m)⟩
  | apipe p => exact ⟨edgeInv_of_eq rfl rfl hinv, edgesMono_of_eq rfl⟩
  | mkCall md t now => exact ⟨edgeInv_of_eq rfl rfl hinv, edgesMono_of_eq rfl⟩
  | sendOp md => exact ⟨hinv, edgesMono_of_eq rfl⟩
  | regCall nm h => exact ⟨edgeInv_of_eq rfl rfl hinv, edgesMono_of_eq rfl⟩
  | fireT n =>
      exact ⟨edgeInv_of_eq (fireTimeout_edges c n).2 (fireTimeout_edges c n).1
        hinv, edgesMono_of_eq (fireTimeout_edges c n).1⟩
  | destroyOp => exact ⟨edgeInv_of_eq rfl rfl hinv, edgesMono_of_eq rfl⟩

/-- C8 witness: invariant preservation through a concrete
topology-changing handshake. -/
theorem c8_witness :
    edgeInv chanAB ∧
    (edgeInv ((ChanOp.hshake 0 hsBX).apply chanAB) ∧
     edgesMono chanAB ((ChanOp.hshake 0 hsBX).apply chanAB)) :=
  ⟨by decide, c8_edge_invariant (ChanOp.hshake 0 hsBX) chanAB (by decide) (by decide)⟩

end VapIpc
